import Mathlib

/-!
# AvnetBG96_azure_client.cpp : message pipeline and worker loop

A shallow embedding of `src/AvnetBG96_azure_client.cpp`:

* C strings and heap blocks are lists of `Char`, one `Char` per byte, `NUL` being the
  terminator;
* a C `float` is its IEEE-754 binary32 bit pattern, decoded with explicit `/` and `%`;
  its value is the exact dyadic rational, so `%.Nf` is computed in integer arithmetic;
  `%.Nf` prints the correctly rounded decimal (ties to even), as the C library does for a
  `float` promoted to `double`;
* `snprintf` is an interpreter of the format string over the argument list;
* calls into the Azure SDK, the C library allocator, the clock and `platform_RSSI` are
  inputs of the model: their outcomes are read from an environment record, and every
  outcome the callee can have is an input the theorems quantify over;
* an allocation the source uses without checking it (`malloc` in `makeMessage`, the
  tables of the optional statistics dumps) makes the behaviour undefined when it fails,
  and so does following a pointer that was never assigned: the model then yields `none`;
* the `while (1)` loop never ends: it is run for as many iterations as environments are
  supplied, each iteration yielding the list of its observable events, in program order;
* console output is kept as a tagged line, not as text;
* `main` (banner, `platform_init`, sensor board set-up, thread start and join) is outside
  the model.
-/

namespace AzureClient

/-! ## C strings and heap blocks -/

/-- The terminator of a C string. -/
def NUL : Char := Char.ofNat 0

/-- The text of the C string stored at the start of `mem`: the chars before the first
`NUL` (all of `mem` when it holds none). -/
def cstr (mem : List Char) : List Char := mem.takeWhile (fun c => c != NUL)

/-- The length `strlen(mem)`. -/
def strlen (mem : List Char) : Nat := (cstr mem).length

/-- The call `malloc(n)`: `none` is a `NULL` result; otherwise the fresh block of `n`
bytes, whose uninitialised content is whatever the allocator left there (`garbage i` at
offset `i`). -/
def malloc (outcome : Option (Nat → Char)) (n : Nat) : Option (List Char) :=
  outcome.map (fun garbage => (List.range n).map garbage)

/-! ## printf conversions -/

/-- The decimal digit `d` (less than ten) as a character. -/
def digitChar (d : Nat) : Char := Char.ofNat (48 + d)

/-- Decimal digits of `n`, most significant first, computed with `fuel` divisions. -/
def natDigitsAux : Nat → Nat → List Char
  | 0, n => [digitChar (n % 10)]
  | fuel + 1, n =>
    if n < 10 then [digitChar (n % 10)]
    else natDigitsAux fuel (n / 10) ++ [digitChar (n % 10)]

/-- Decimal numeral of `n` without leading zeros (`0` is `"0"`). -/
def natDigits (n : Nat) : List Char := natDigitsAux n n

/-- The conversion `%d` of an `int`. -/
def fmtInt (n : Int) : List Char :=
  if n < 0 then '-' :: natDigits n.natAbs else natDigits n.natAbs

/-- A C `float`: the IEEE-754 binary32 bit pattern (taken modulo `2^32`). -/
structure CFloat where
  bits : Nat
deriving DecidableEq

namespace CFloat

/-- Sign bit. -/
def sign (x : CFloat) : Bool := (x.bits / 2 ^ 31) % 2 == 1

/-- Biased exponent field (8 bits). -/
def expo (x : CFloat) : Nat := (x.bits / 2 ^ 23) % 256

/-- Fraction field (23 bits). -/
def frac (x : CFloat) : Nat := x.bits % 2 ^ 23

/-- Neither an infinity nor a NaN. -/
def isFinite (x : CFloat) : Bool := x.expo < 255

/-- Integer significand: `|x| = mant * 2 ^ (scale - 149)`. -/
def mant (x : CFloat) : Nat := if x.expo = 0 then x.frac else 2 ^ 23 + x.frac

/-- Binary scale of the significand, offset by 149 so that it is a natural number:
`|x| = mant * 2 ^ scale / 2 ^ 149`. -/
def scale (x : CFloat) : Nat := if x.expo = 0 then 0 else x.expo - 1

end CFloat

/-- Quotient `num / den` rounded to the nearest integer, ties to the even one. -/
def roundHalfEven (num den : Nat) : Nat :=
  let q := num / den
  let r := num % den
  if 2 * r > den ∨ (2 * r = den ∧ q % 2 = 1) then q + 1 else q

/-- The magnitude `|x| * 10 ^ p` of a finite float, rounded to the nearest integer
(ties to even): the digits that `%.pf` prints. -/
def scaledMagnitude (p : Nat) (x : CFloat) : Nat :=
  roundHalfEven (x.mant * 2 ^ x.scale * 10 ^ p) (2 ^ 149)

/-- The numeral `d` padded with zeros on the left to `p` digits. -/
def padZeros (p : Nat) (d : List Char) : List Char :=
  List.replicate (p - d.length) '0' ++ d

/-- The conversion `%.pf` of a `float` argument (promoted to `double`, which is exact):
sign, integer part, and for `p > 0` a point and exactly `p` fraction digits, correctly
rounded; infinities and NaNs print as `inf` and `nan`. -/
def fmtFixed (p : Nat) (x : CFloat) : List Char :=
  (if x.sign then ['-'] else []) ++
  (if x.isFinite then
    let q := scaledMagnitude p x
    natDigits (q / 10 ^ p) ++
      (if p = 0 then [] else '.' :: padZeros p (natDigits (q % 10 ^ p)))
  else if x.frac = 0 then "inf".toList else "nan".toList)

/-- An argument of a variadic `printf`-family call. -/
inductive Arg where
  | str (s : List Char)
  | dbl (x : CFloat)
  | int (n : Int)

/-- The text a `printf`-family call produces for a format string and its arguments.
The conversions are the ones the source uses: `%s`, `%d` and `%.Nf` with a one-digit
precision; every other character is copied. -/
def formatText : List Char → List Arg → List Char
  | [], _ => []
  | '%' :: 's' :: rest, Arg.str s :: args => cstr s ++ formatText rest args
  | '%' :: 'd' :: rest, Arg.int n :: args => fmtInt n ++ formatText rest args
  | '%' :: '.' :: p :: 'f' :: rest, Arg.dbl x :: args =>
      fmtFixed (p.toNat - 48) x ++ formatText rest args
  | c :: rest, args => c :: formatText rest args

/-- The call `snprintf(dest, size, ...)` where the conversions produce `text`: at most `size - 1`
chars of `text` are stored, followed by `NUL`; the rest of `dest` is left as it was. -/
def snprintf (dest : List Char) (size : Nat) (text : List Char) : List Char :=
  if size = 0 then dest
  else
    let out := text.take (size - 1) ++ [NUL]
    out ++ dest.drop out.length

/-! ## The telemetry records and `makeMessage` -/

structure Position where
  latitude : CFloat
  longitude : CFloat
  geofence : Int

structure Temperature where
  containerTemperature : CFloat
  heaterTemperature : CFloat

structure Health where
  batteryVoltage : CFloat
  network : List Char
  signalStrength : Int

/-- The message sent to Azure, as `makeMessage` reads it through `iotDev`: `timestamp` is
`none` for the `NULL` pointer, and `position`, `temperature` and `health` are the records
that the three pointers of the block point to. -/
structure IoTDeviceToSystem where
  timestamp : Option (List Char)
  device : List Char
  position : Position
  temperature : Temperature
  health : Health

/-- The format string of the message, literal by literal as in the source. -/
def IOTDEVICE_MSG_FORMAT : List Char :=
  "\x7b".toList ++
  "\"timestamp\":\"%s\",".toList ++
  "\"device\":\"%s\",".toList ++
  "\"position\": \x7b".toList ++
  "\"latitude\":%.4f,".toList ++
  "\"longitude\":%.4f,".toList ++
  "\"geoFence\":%d".toList ++
  "\x7d,".toList ++
  "\"temperature\": \x7b".toList ++
  "\"container\":%.1f,".toList ++
  "\"heater\":%.1f".toList ++
  "\x7d,".toList ++
  "\"health\": \x7b".toList ++
  "\"batteryVoltage\":%.2f,".toList ++
  "\"network\":\"%s\",".toList ++
  "\"signalStrength\":%d".toList ++
  "\x7d".toList ++
  "\x7d".toList

/-- Size of the message buffer in `makeMessage`. -/
def msg_size : Nat := 512

/-- The arguments `makeMessage` passes to `snprintf`, `now` being the time stamp that
`strftime` left in the static buffer. -/
def messageArgs (now : List Char) (iotDev : IoTDeviceToSystem) : List Arg :=
  [Arg.str now,
   Arg.str iotDev.device,
   Arg.dbl iotDev.position.latitude,
   Arg.dbl iotDev.position.longitude,
   Arg.int iotDev.position.geofence,
   Arg.dbl iotDev.temperature.containerTemperature,
   Arg.dbl iotDev.temperature.heaterTemperature,
   Arg.dbl iotDev.health.batteryVoltage,
   Arg.str iotDev.health.network,
   Arg.int iotDev.health.signalStrength]

/-- The fully formatted message text, before any bound is applied. -/
def fullText (now : List Char) (iotDev : IoTDeviceToSystem) : List Char :=
  formatText IOTDEVICE_MSG_FORMAT (messageArgs now iotDev)

/-- The function `makeMessage(iotDev)`. `heap` is the outcome of `malloc(msg_size)` and
`now` the text `strftime(buffer, 80, "%a %F %X", gmtime(..))` produced. The result is the
record with `timestamp` updated and the returned block. `none` stands for the undefined
behaviour of `snprintf` writing through the unchecked `NULL` of a failed `malloc`. -/
def makeMessage (heap : Option (Nat → Char)) (now : List Char) (iotDev : IoTDeviceToSystem) :
    Option (IoTDeviceToSystem × List Char) :=
  match malloc heap msg_size with
  | none => none
  | some ptr =>
    let iotDev1 := { iotDev with timestamp := some now }
    some (iotDev1, snprintf ptr msg_size (fullText now iotDev1))

/-! ## Observable events -/

/-- Heap blocks the task allocates itself. -/
inductive Block where
  | position | temperature | health | iotDevice
  | message        -- the buffer `makeMessage` returns
  | received       -- the zero terminated copy in `receiveMessageCallback`
  | stackStats | threadStats
deriving DecidableEq

/-- The options `azure_task` sets on the client handle. -/
inductive ClientOption where
  | TrustedCerts | product_info | MinimumPollingTime
deriving DecidableEq

inductive IOTHUBMESSAGE_DISPOSITION_RESULT where
  | IOTHUBMESSAGE_ACCEPTED | IOTHUBMESSAGE_REJECTED | IOTHUBMESSAGE_ABANDONED
deriving DecidableEq

/-- Lines written to the console. Only the arguments that the model computes are kept;
the time-of-day suffix printed by `makeMessage` and the figures of the statistics dumps
are not. -/
inductive Line where
  | failedCreate
  | failedOption (o : ClientOption)
  | failedMalloc (b : Block)
  | cycleNumber (msg_sent : Int)
  | sendStamp
  | unableToCreateMessage
  | sendFailed (rssi : Int)
  | sendOk (rssi : Int)
  | receiving (text : List Char)
  | heapStats | stackStats | threadStats
deriving DecidableEq

/-- What the task does that can be observed from outside, in program order. -/
inductive Event where
  | print (l : Line)
  | createClient (ok : Bool)                 -- IoTHubClient_LL_CreateFromConnectionString
  | setOption (o : ClientOption) (ok : Bool) -- IoTHubClient_LL_SetOption
  | setMessageCallback                       -- IoTHubClient_LL_SetMessageCallback
  | alloc (b : Block)                        -- a successful `malloc` / `new`
  | free (b : Block)
  | createMessage (bytes : List Char) (ok : Bool)  -- IoTHubMessage_CreateFromByteArray
  | sendEventAsync (bytes : List Char) (ok : Bool) -- IoTHubClient_LL_SendEventAsync
  | destroyMessage                           -- IoTHubMessage_Destroy
  | doWork                                   -- IoTHubClient_LL_DoWork
  | disposition (d : IOTHUBMESSAGE_DISPOSITION_RESULT) -- value the callback returns
  | wait (ms : Nat)                          -- Thread::wait
deriving DecidableEq

/-! ## `sendMessage` -/

/-- The function `sendMessage(iotHubClientHandle, buffer, size)`. `createOk` tells whether
`IoTHubMessage_CreateFromByteArray` returns a handle, `sendOk` whether
`IoTHubClient_LL_SendEventAsync` returns `IOTHUB_CLIENT_OK`, `rssi` is `platform_RSSI()`. -/
def sendMessage (createOk sendOk : Bool) (rssi : Int) (buffer : List Char) (size : Nat) :
    List Event :=
  let bytes := buffer.take size
  if !createOk then
    [Event.createMessage bytes false, Event.print Line.unableToCreateMessage]
  else
    [Event.createMessage bytes true,
     Event.sendEventAsync bytes sendOk,
     Event.print (if sendOk then Line.sendOk rssi else Line.sendFailed rssi),
     Event.destroyMessage]

/-! ## `receiveMessageCallback` -/

/-- An inbound message as `IoTHubMessage_GetByteArray` shows it: `none` when the call
does not return `IOTHUB_MESSAGE_OK`, otherwise the `size` bytes at `buffer`. -/
structure IOTHUB_MESSAGE where
  getByteArray : Option (List Char)

/-- The call `strncpy(dest, src, n)`: the chars of `src` before its first `NUL`, at most `n` of
them, then `NUL`s up to `n` chars in all; `dest` keeps its content from offset `n` on. -/
def strncpy (dest src : List Char) (n : Nat) : List Char :=
  let s := cstr (src.take n)
  s ++ List.replicate (n - s.length) NUL ++ dest.drop n

/-- The block `temp` after `strncpy(temp, buffer, size); temp[size] = 0`. -/
def zeroTerminatedCopy (temp payload : List Char) : List Char :=
  (strncpy temp payload payload.length).set payload.length NUL

/-- The function `receiveMessageCallback(message, userContextCallback)`; `heap` is the outcome of
`malloc(size + 1)`. Returns the disposition and what the call did. (`size + 1` does not
wrap: a payload held in memory is shorter than `SIZE_MAX`.) -/
def receiveMessageCallback (message : IOTHUB_MESSAGE) (heap : Option (Nat → Char)) :
    IOTHUBMESSAGE_DISPOSITION_RESULT × List Event :=
  match message.getByteArray with
  | none => (.IOTHUBMESSAGE_ABANDONED, [])
  | some payload =>
    match malloc heap (payload.length + 1) with
    | none => (.IOTHUBMESSAGE_ABANDONED, [])
    | some temp0 =>
      let temp := zeroTerminatedCopy temp0 payload
      (.IOTHUBMESSAGE_ACCEPTED,
        [Event.alloc Block.received,
         Event.print (Line.receiving (cstr temp)),
         Event.free Block.received])

/-! ## `azure_task` -/

/-- Compile-time configuration: the macros that select conditional code. -/
structure Build where
  teluskit : Bool      -- MBED_CONF_APP_TELUSKIT == 1
  heapStats : Bool     -- defined(MBED_HEAP_STATS_ENABLED)
  stackStats : Bool    -- defined(MBED_STACK_STATS_ENABLED)
  threadStats : Bool   -- defined(MBED_THREAD_STATS_ENABLED)

/-- Outcomes of the calls `azure_task` makes before its loop. -/
structure Startup where
  createOk : Bool             -- the client handle is not `NULL`
  trustedCertsOk : Bool
  productInfoOk : Bool
  minimumPollingTimeOk : Bool
  positionOk : Bool           -- `malloc(sizeof(Position))` is not `NULL`
  temperatureOk : Bool
  healthOk : Bool
  iotDeviceOk : Bool

/-- Outcomes of the calls one iteration of the loop makes. -/
structure CycleEnv where
  now : List Char                 -- text `strftime` writes in `makeMessage`
  heap : Option (Nat → Char)      -- `malloc(msg_size)` in `makeMessage`
  createOk : Bool                 -- `IoTHubMessage_CreateFromByteArray` gives a handle
  sendOk : Bool                   -- `IoTHubClient_LL_SendEventAsync` gives `IOTHUB_CLIENT_OK`
  rssi : Int                      -- `platform_RSSI()`
  inbound : List (IOTHUB_MESSAGE × Option (Nat → Char))
      -- messages `IoTHubClient_LL_DoWork` hands to the callback, each with the outcome
      -- of the callback's `malloc`
  stackStatsOk : Bool             -- `malloc` of the stack statistics table
  threadStatsOk : Bool            -- `new` of the thread statistics table

/-- The state an iteration of the loop works on: the counter `msg_sent` and the record
read through `iotDev`. -/
structure Worker where
  msg_sent : Int
  iotDev : IoTDeviceToSystem

/-- Wrap-around of a 32-bit `int`. -/
def wrapInt32 (x : Int) : Int := (x + 2 ^ 31) % 2 ^ 32 - 2 ^ 31

/-- The variables of `azure_task` when its loop is reached. `iotPos`, `iotTemp` and
`iotHealth` are the three scratch records. The other fields are the block `*iotDev`,
field by field: `timestamp` is `none` for `NULL`; each of `position`, `temperature` and
`health` is `none` as long as nothing has been stored in that pointer field of the
freshly allocated block, its value being then indeterminate. -/
structure LoopEntry where
  msg_sent : Int
  iotPos : Position
  iotTemp : Temperature
  iotHealth : Health
  timestamp : Option (List Char)     -- `iotDev->timestamp`
  device : List Char                 -- `iotDev->device`
  position : Option Position         -- `iotDev->position`
  temperature : Option Temperature   -- `iotDev->temperature`
  health : Option Health             -- `iotDev->health`

/-- The variables of `azure_task` after the statements that precede the loop: `msg_sent`
is 1, the scratch records hold the constants of the source (as binary32 values),
`iotDev->timestamp` is `NULL` and `iotDev->device` the device name. The source has no
store into `iotDev->position`, `iotDev->temperature` or `iotDev->health`. -/
def loopEntry : LoopEntry :=
  { msg_sent := 1,
    iotPos := { latitude := ⟨0x421b981f⟩, longitude := ⟨0xc29a1361⟩, geofence := 0 },
    iotTemp := { containerTemperature := ⟨0x420d999a⟩, heaterTemperature := ⟨0x42146666⟩ },
    iotHealth :=
      { batteryVoltage := ⟨0x4059999a⟩, network := "Orange".toList, signalStrength := 7 },
    timestamp := none,
    device := "TEST-DEVICE-1".toList,
    position := none,
    temperature := none,
    health := none }

/-- The state the loop body reads through `iotDev`. It is defined when the three pointer
fields of `*iotDev` that `makeMessage` follows have been assigned; following an
indeterminate pointer is undefined behaviour (`none`). -/
def LoopEntry.worker (st : LoopEntry) : Option Worker :=
  match st.position, st.temperature, st.health with
  | some p, some t, some h =>
    some { msg_sent := st.msg_sent,
           iotDev := { timestamp := st.timestamp, device := st.device, position := p,
                       temperature := t, health := h } }
  | _, _, _ => none

/-- The `IoTHubClient_LL_SetOption` calls of `azure_task`; a failure is printed and has
no other effect. -/
def setOptions (b : Build) (s : Startup) : List Event :=
  [Event.setOption .TrustedCerts s.trustedCertsOk] ++
  (if s.trustedCertsOk then [] else [Event.print (Line.failedOption .TrustedCerts)]) ++
  (if b.teluskit then
    [Event.setOption .product_info s.productInfoOk] ++
    (if s.productInfoOk then [] else [Event.print (Line.failedOption .product_info)])
   else []) ++
  [Event.setOption .MinimumPollingTime s.minimumPollingTimeOk] ++
  (if s.minimumPollingTimeOk then []
   else [Event.print (Line.failedOption .MinimumPollingTime)])

/-- The part of `azure_task` before the loop: the events, and the variables when the loop
is reached (`none` when the function returns early). -/
def azure_init (b : Build) (s : Startup) : List Event × Option LoopEntry :=
  if !s.createOk then
    ([Event.createClient false, Event.print Line.failedCreate], none)
  else
    let ev := Event.createClient true :: setOptions b s
    if !s.positionOk then
      (ev ++ [Event.print (Line.failedMalloc .position)], none)
    else if !s.temperatureOk then
      (ev ++ [Event.alloc .position, Event.print (Line.failedMalloc .temperature)], none)
    else if !s.healthOk then
      (ev ++ [Event.alloc .position, Event.alloc .temperature,
              Event.print (Line.failedMalloc .health)], none)
    else if !s.iotDeviceOk then
      (ev ++ [Event.alloc .position, Event.alloc .temperature, Event.alloc .health,
              Event.print (Line.failedMalloc .iotDevice)], none)
    else
      (ev ++ [Event.alloc .position, Event.alloc .temperature, Event.alloc .health,
              Event.alloc .iotDevice, Event.setMessageCallback],
       some loopEntry)

/-- The call `IoTHubClient_LL_DoWork`: the call itself, then the registered callback once for
every message the SDK delivers, its return value going back to the SDK. -/
def doWork : List (IOTHUB_MESSAGE × Option (Nat → Char)) → List Event
  | [] => []
  | (m, heap) :: rest =>
    (receiveMessageCallback m heap).2 ++
      Event.disposition (receiveMessageCallback m heap).1 :: doWork rest

/-- The statistics dumps at the end of an iteration, when compiled in. `none`: a table
could not be allocated, which the source does not check for. -/
def diagnostics (b : Build) (e : CycleEnv) : Option (List Event) :=
  let heapEv := if b.heapStats then [Event.print Line.heapStats] else []
  if b.stackStats && !e.stackStatsOk then none
  else
    let stackEv :=
      if b.stackStats then [Event.alloc .stackStats, Event.print Line.stackStats] else []
    if b.threadStats && !e.threadStatsOk then none
    else
      let threadEv :=
        if b.threadStats then [Event.alloc .threadStats, Event.print Line.threadStats]
        else []
      some (heapEv ++ stackEv ++ threadEv)

/-- One iteration of the `while (1)` loop of `azure_task`. `none`: the iteration runs
into undefined behaviour (an unchecked allocation failed). -/
def cycle (b : Build) (e : CycleEnv) (w : Worker) : Option (Worker × List Event) :=
  match makeMessage e.heap e.now w.iotDev with
  | none => none
  | some (iotDev, msg) =>
    let msgSize := strlen msg
    match diagnostics b e with
    | none => none
    | some diag =>
      some ({ msg_sent := wrapInt32 (w.msg_sent + 1), iotDev := iotDev },
        [Event.print (Line.cycleNumber w.msg_sent),
         Event.alloc .message,
         Event.print Line.sendStamp] ++
        sendMessage e.createOk e.sendOk e.rssi msg msgSize ++
        [Event.free .message, Event.doWork] ++
        doWork e.inbound ++
        diag ++
        [Event.wait 5000])

/-- The loop run for as many iterations as there are environments: the events of each
iteration, in order. -/
def runCycles (b : Build) : List CycleEnv → Worker → Option (List (List Event))
  | [], _ => some []
  | e :: rest, w =>
    match cycle b e w with
    | none => none
    | some (w1, ev) => (runCycles b rest w1).map (fun evs => ev :: evs)

/-- The function `azure_task`, observed for `cycles.length` iterations of its loop: the
events before the loop and the events of each iteration. `none`: an iteration runs into
undefined behaviour; the first one does when `makeMessage` has to follow a pointer of
`*iotDev` that was never assigned. -/
def azure_task (b : Build) (s : Startup) (cycles : List CycleEnv) :
    Option (List Event × List (List Event)) :=
  match azure_init b s with
  | (ev, none) => some (ev, [])
  | (ev, some st) =>
    match cycles with
    | [] => some (ev, [])
    | _ :: _ =>
      match st.worker with
      | none => none
      | some w => (runCycles b cycles w).map (fun evs => (ev, evs))

/-! ## The message text spelled out -/

/-- The message text written out: the literal pieces of the format and the conversions
of the ten arguments, in order. -/
def spelledText (now : List Char) (iotDev : IoTDeviceToSystem) : List Char :=
  "\x7b\"timestamp\":\"".toList ++ cstr now ++
  "\",\"device\":\"".toList ++ cstr iotDev.device ++
  "\",\"position\": \x7b\"latitude\":".toList ++ fmtFixed 4 iotDev.position.latitude ++
  ",\"longitude\":".toList ++ fmtFixed 4 iotDev.position.longitude ++
  ",\"geoFence\":".toList ++ fmtInt iotDev.position.geofence ++
  "\x7d,\"temperature\": \x7b\"container\":".toList ++
    fmtFixed 1 iotDev.temperature.containerTemperature ++
  ",\"heater\":".toList ++ fmtFixed 1 iotDev.temperature.heaterTemperature ++
  "\x7d,\"health\": \x7b\"batteryVoltage\":".toList ++
    fmtFixed 2 iotDev.health.batteryVoltage ++
  ",\"network\":\"".toList ++ cstr iotDev.health.network ++
  "\",\"signalStrength\":".toList ++ fmtInt iotDev.health.signalStrength ++
  "\x7d\x7d".toList

/-- No char of `l` is the terminator. -/
def NoNul (l : List Char) : Prop := ∀ c ∈ l, c ≠ NUL

/-- The text `s` is a decimal numeral with exactly `p` fraction digits: an optional minus sign, at
least one integer digit, a point and `p` digits. -/
def IsFixedNumeral (p : Nat) (s : List Char) : Prop :=
  ∃ (neg : Bool) (ip fp : List Char),
    s = (if neg then ['-'] else []) ++ ip ++ '.' :: fp ∧
    ip ≠ [] ∧ (∀ c ∈ ip, c.isDigit = true) ∧ fp.length = p ∧ ∀ c ∈ fp, c.isDigit = true

/-- The natural number a string of decimal digits denotes. -/
def numeralValue (s : List Char) : Nat :=
  s.foldl (fun a c => 10 * a + (c.toNat - 48)) 0

/-- The message text as the specification writes it: the same fields with nothing
between the tokens. -/
def specifiedText (now : List Char) (iotDev : IoTDeviceToSystem) : List Char :=
  "\x7b\"timestamp\":\"".toList ++ cstr now ++
  "\",\"device\":\"".toList ++ cstr iotDev.device ++
  "\",\"position\":\x7b\"latitude\":".toList ++ fmtFixed 4 iotDev.position.latitude ++
  ",\"longitude\":".toList ++ fmtFixed 4 iotDev.position.longitude ++
  ",\"geoFence\":".toList ++ fmtInt iotDev.position.geofence ++
  "\x7d,\"temperature\":\x7b\"container\":".toList ++
    fmtFixed 1 iotDev.temperature.containerTemperature ++
  ",\"heater\":".toList ++ fmtFixed 1 iotDev.temperature.heaterTemperature ++
  "\x7d,\"health\":\x7b\"batteryVoltage\":".toList ++
    fmtFixed 2 iotDev.health.batteryVoltage ++
  ",\"network\":\"".toList ++ cstr iotDev.health.network ++
  "\",\"signalStrength\":".toList ++ fmtInt iotDev.health.signalStrength ++
  "\x7d\x7d".toList

/-- The float `x` is a binary32 value nearest to the decimal `num / den` with sign `neg`:
the distance is at most half a unit in the last place of `x`. -/
def CFloat.isNearest (x : CFloat) (neg : Bool) (num den : Nat) : Bool :=
  x.isFinite && x.sign == neg &&
  (2 * (x.mant * 2 ^ x.scale * den) ≤ 2 * (num * 2 ^ 149) + 2 ^ x.scale * den) &&
  (2 * (num * 2 ^ 149) ≤ 2 * (x.mant * 2 ^ x.scale * den) + 2 ^ x.scale * den)

/-- Every call before the loop whose failure makes `azure_task` return succeeds. -/
def Startup.reachesLoop (s : Startup) : Bool :=
  s.createOk && s.positionOk && s.temperatureOk && s.healthOk && s.iotDeviceOk

/-- Every allocation of the iteration that the source uses unchecked succeeds. -/
def CycleEnv.allocated (b : Build) (e : CycleEnv) : Bool :=
  e.heap.isSome && (!b.stackStats || e.stackStatsOk) && (!b.threadStats || e.threadStatsOk)

/-- A call of `IoTHubClient_LL_SendEventAsync`. -/
def Event.isSend : Event → Bool
  | .sendEventAsync _ _ => true
  | _ => false

/-- A call of `IoTHubMessage_CreateFromByteArray`, the first step of `sendMessage`. -/
def Event.isSendAttempt : Event → Bool
  | .createMessage _ _ => true
  | _ => false

/-- A call of `IoTHubClient_LL_DoWork`. -/
def Event.isDoWork : Event → Bool
  | .doWork => true
  | _ => false

/-- An allocation of a per-cycle buffer: the message buffer of `makeMessage` or a
transport message handle. -/
def Event.acquires : Event → Bool
  | .alloc .message => true
  | .createMessage _ true => true
  | _ => false

/-- A release of a per-cycle buffer: `free(msg)` or `IoTHubMessage_Destroy`. -/
def Event.releases : Event → Bool
  | .free .message => true
  | .destroyMessage => true
  | _ => false

/-- An event that only an iteration of the loop produces: encoding a message, a send
attempt, a send, a pump of the transport. -/
def Event.inCycle : Event → Bool
  | .alloc .message => true
  | .print (.cycleNumber _) => true
  | .print .sendStamp => true
  | .createMessage _ _ => true
  | .sendEventAsync _ _ => true
  | .doWork => true
  | _ => false

/-! ## Concrete inputs -/

/-- Content of a fresh heap block in the examples. -/
def exampleGarbage : Nat → Char := fun _ => 'x'

/-- The time stamp of the specification's example. -/
def exampleNow : List Char := "Mon 2024-01-01 12:00:00".toList

/-- The record of the specification's example: the device name and the three scratch
records that `azure_task` fills. -/
def exampleDev : IoTDeviceToSystem :=
  { timestamp := none, device := "TEST-DEVICE-1".toList, position := loopEntry.iotPos,
    temperature := loopEntry.iotTemp, health := loopEntry.iotHealth }

/-- A state of the loop body whose record is the example. -/
def exampleWorker : Worker := { msg_sent := 1, iotDev := exampleDev }

/-- A snapshot whose network name has 600 chars. -/
def longNetworkDev : IoTDeviceToSystem :=
  { exampleDev with
    health := { exampleDev.health with network := List.replicate 600 'A' } }

/-- A build without optional code. -/
def plainBuild : Build :=
  { teluskit := false, heapStats := false, stackStats := false, threadStats := false }

/-- A start in which every call succeeds. -/
def goodStartup : Startup :=
  { createOk := true, trustedCertsOk := true, productInfoOk := true,
    minimumPollingTimeOk := true, positionOk := true, temperatureOk := true,
    healthOk := true, iotDeviceOk := true }

/-- An iteration in which every call succeeds and nothing arrives. -/
def goodCycle : CycleEnv :=
  { now := exampleNow, heap := some exampleGarbage, createOk := true, sendOk := true,
    rssi := -70, inbound := [], stackStatsOk := true, threadStatsOk := true }

/-- An event that is no send attempt, no send and no pump, and touches no per-cycle
buffer. -/
def Event.isInert (x : Event) : Bool :=
  !(x.isSend || x.isSendAttempt || x.isDoWork || x.acquires || x.releases)

/-- The start `s` with every `IoTHubClient_LL_SetOption` call succeeding. -/
def Startup.withOptionsOk (s : Startup) : Startup :=
  { s with trustedCertsOk := true, productInfoOk := true, minimumPollingTimeOk := true }

/-- The events `ev` are those of one iteration of the loop in environment `e`, from some
worker state. -/
def IsCycle (b : Build) (e : CycleEnv) (ev : List Event) : Prop :=
  ∃ w w1, cycle b e w = some (w1, ev)

/-- The number of live per-cycle buffers after the events `trace`, `start` being the
number before them. -/
def liveBuffers (start : Int) (trace : List Event) : Int :=
  trace.foldl (fun n x => if x.acquires then n + 1 else if x.releases then n - 1 else n) start

/-- An iteration in which `IoTHubMessage_CreateFromByteArray` returns `NULL`. -/
def noHandleCycle : CycleEnv := { goodCycle with createOk := false }

/-- An iteration in which `IoTHubClient_LL_SendEventAsync` reports a failure. -/
def sendFailureCycle : CycleEnv := { goodCycle with sendOk := false }

/-- A start in which the allocation of the `Health` record fails. -/
def noHealthStartup : Startup := { goodStartup with healthOk := false }

/-- A start in which every `IoTHubClient_LL_SetOption` call fails. -/
def noOptionStartup : Startup :=
  { goodStartup with
    trustedCertsOk := false, productInfoOk := false, minimumPollingTimeOk := false }

/-- A build with the optional `product_info` option compiled in. -/
def telusBuild : Build := { plainBuild with teluskit := true }

/-! ## Lemmas on C strings -/

theorem noNul_nil : NoNul [] := by
  intro c hc; cases hc

theorem noNul_append {a b : List Char} (ha : NoNul a) (hb : NoNul b) : NoNul (a ++ b) := by
  intro c hc
  rcases List.mem_append.mp hc with h | h
  · exact ha c h
  · exact hb c h

theorem noNul_cons {c : Char} {l : List Char} (hc : c ≠ NUL) (hl : NoNul l) :
    NoNul (c :: l) := by
  intro d hd
  rcases List.mem_cons.mp hd with h | h
  · exact h ▸ hc
  · exact hl d h

theorem noNul_take {l : List Char} (n : Nat) (hl : NoNul l) : NoNul (l.take n) :=
  fun c hc => hl c (List.mem_of_mem_take hc)

theorem noNul_cstr (mem : List Char) : NoNul (cstr mem) := by
  intro c hc
  have h := List.mem_takeWhile_imp hc
  simpa using h

theorem cstr_of_noNul {l : List Char} (hl : NoNul l) : cstr l = l := by
  unfold cstr
  rw [List.takeWhile_eq_self_iff]
  intro c hc
  simpa using hl c hc

theorem cstr_append_nul {a : List Char} (ha : NoNul a) (r : List Char) :
    cstr (a ++ NUL :: r) = a := by
  induction a with
  | nil => simp [cstr, List.takeWhile]
  | cons c t ih =>
    have hc : c ≠ NUL := ha c (List.mem_cons_self _ _)
    have ht : NoNul t := fun d hd => ha d (List.mem_cons_of_mem _ hd)
    have := ih ht
    simp only [cstr] at this ⊢
    have hb : (c != NUL) = true := by simpa using hc
    rw [List.cons_append, List.takeWhile_cons, hb]
    simp only [if_true, this]

theorem cstr_idem (mem : List Char) : cstr (cstr mem) = cstr mem :=
  cstr_of_noNul (noNul_cstr mem)

theorem length_malloc {heap : Option (Nat → Char)} {n : Nat} {blk : List Char}
    (h : malloc heap n = some blk) : blk.length = n := by
  cases heap with
  | none => simp [malloc] at h
  | some g =>
    simp only [malloc, Option.map_some', Option.some.injEq] at h
    subst h
    simp

theorem length_snprintf (dest : List Char) (size : Nat) (text : List Char)
    (hd : dest.length = size) : (snprintf dest size text).length = size := by
  unfold snprintf
  split
  · exact hd
  · simp only [List.length_append, List.length_take, List.length_singleton, List.length_drop]
    omega

theorem cstr_snprintf (dest : List Char) (size : Nat) (text : List Char) (hs : 0 < size)
    (ht : NoNul text) : cstr (snprintf dest size text) = text.take (size - 1) := by
  unfold snprintf
  rw [if_neg (by omega)]
  simp only [List.append_assoc, List.singleton_append]
  exact cstr_append_nul (noNul_take _ ht) _

theorem snprintf_terminator (dest : List Char) (size : Nat) (text : List Char) (hs : 0 < size)
    (ht : size - 1 < text.length) : (snprintf dest size text).get? (size - 1) = some NUL := by
  unfold snprintf
  rw [if_neg (by omega)]
  have hl : (text.take (size - 1)).length = size - 1 := by
    rw [List.length_take]; omega
  rw [List.get?_eq_getElem?, List.append_assoc, List.getElem?_append_right (by omega), hl]
  simp

/-! ## Lemmas on the numeric conversions -/

theorem isDigit_digitChar (n : Nat) : (digitChar (n % 10)).isDigit = true := by
  have h : n % 10 < 10 := Nat.mod_lt _ (by decide)
  generalize n % 10 = d at h
  interval_cases d <;> decide

theorem isDigit_natDigitsAux (fuel n : Nat) : ∀ c ∈ natDigitsAux fuel n, c.isDigit = true := by
  induction fuel generalizing n with
  | zero =>
    intro c hc
    simp only [natDigitsAux, List.mem_singleton] at hc
    exact hc ▸ isDigit_digitChar n
  | succ k ih =>
    intro c hc
    unfold natDigitsAux at hc
    split at hc
    · simp only [List.mem_singleton] at hc
      exact hc ▸ isDigit_digitChar n
    · rcases List.mem_append.mp hc with h | h
      · exact ih _ c h
      · simp only [List.mem_singleton] at h
        exact h ▸ isDigit_digitChar n

theorem isDigit_natDigits (n : Nat) : ∀ c ∈ natDigits n, c.isDigit = true :=
  isDigit_natDigitsAux n n

theorem natDigitsAux_ne_nil (fuel n : Nat) : natDigitsAux fuel n ≠ [] := by
  cases fuel with
  | zero => simp [natDigitsAux]
  | succ k =>
    unfold natDigitsAux
    split <;> simp

theorem natDigits_ne_nil (n : Nat) : natDigits n ≠ [] := natDigitsAux_ne_nil n n

theorem length_natDigitsAux_le (fuel : Nat) :
    ∀ (n k : Nat), n < 10 ^ (k + 1) → (natDigitsAux fuel n).length ≤ k + 1 := by
  induction fuel with
  | zero => intro n k _; simp [natDigitsAux]
  | succ f ih =>
    intro n k hn
    unfold natDigitsAux
    split
    · simp
    · rename_i h10
      cases k with
      | zero => simp at hn; omega
      | succ j =>
        have hdiv : n / 10 < 10 ^ (j + 1) := by
          rw [Nat.div_lt_iff_lt_mul (by decide)]
          calc n < 10 ^ (j + 1 + 1) := hn
            _ = 10 ^ (j + 1) * 10 := by rw [Nat.pow_succ]
        have := ih (n / 10) j hdiv
        simp only [List.length_append, List.length_singleton]
        omega

theorem length_natDigits_le {n p : Nat} (hp : 0 < p) (hn : n < 10 ^ p) :
    (natDigits n).length ≤ p := by
  obtain ⟨k, rfl⟩ : ∃ k, p = k + 1 := ⟨p - 1, by omega⟩
  exact length_natDigitsAux_le n n k hn

theorem isDigit_zero : ('0' : Char).isDigit = true := by decide

theorem length_padZeros {p : Nat} {d : List Char} (h : d.length ≤ p) :
    (padZeros p d).length = p := by
  simp only [padZeros, List.length_append, List.length_replicate]
  omega

theorem isDigit_padZeros (p : Nat) {d : List Char} (h : ∀ c ∈ d, c.isDigit = true) :
    ∀ c ∈ padZeros p d, c.isDigit = true := by
  intro c hc
  rcases List.mem_append.mp hc with h1 | h1
  · rw [List.eq_of_mem_replicate h1]; exact isDigit_zero
  · exact h c h1

/-- A finite float printed with `%.pf`, `p > 0`, is a numeral with exactly `p` fraction
digits. -/
theorem fmtFixed_isFixedNumeral (p : Nat) (x : CFloat) (hp : 0 < p)
    (hx : x.isFinite = true) : IsFixedNumeral p (fmtFixed p x) := by
  refine ⟨x.sign, natDigits (scaledMagnitude p x / 10 ^ p),
    padZeros p (natDigits (scaledMagnitude p x % 10 ^ p)), ?_, natDigits_ne_nil _,
    isDigit_natDigits _, ?_, isDigit_padZeros p (isDigit_natDigits _)⟩
  · simp [fmtFixed, hx, Nat.pos_iff_ne_zero.mp hp]
  · exact length_padZeros
      (length_natDigits_le hp (Nat.mod_lt _ (Nat.pos_pow_of_pos p (by decide))))

theorem ne_nul_of_isDigit {c : Char} (h : c.isDigit = true) : c ≠ NUL := by
  intro hc
  subst hc
  exact absurd h (by decide)

theorem noNul_of_isDigit {l : List Char} (h : ∀ c ∈ l, c.isDigit = true) : NoNul l :=
  fun c hc => ne_nul_of_isDigit (h c hc)

theorem noNul_natDigits (n : Nat) : NoNul (natDigits n) :=
  noNul_of_isDigit (isDigit_natDigits n)

theorem noNul_fmtInt (n : Int) : NoNul (fmtInt n) := by
  unfold fmtInt
  split
  · exact noNul_cons (by decide) (noNul_natDigits _)
  · exact noNul_natDigits _

theorem noNul_fmtFixed (p : Nat) (x : CFloat) : NoNul (fmtFixed p x) := by
  unfold fmtFixed
  apply noNul_append
  · split
    · exact noNul_cons (by decide) noNul_nil
    · exact noNul_nil
  · split
    · apply noNul_append (noNul_natDigits _)
      split
      · exact noNul_nil
      · exact noNul_cons (by decide)
          (noNul_of_isDigit (isDigit_padZeros p (isDigit_natDigits _)))
    · split
      · intro c hc; revert c; decide
      · intro c hc; revert c; decide

/-! ## `makeMessage` -/

set_option maxRecDepth 100000 in
theorem fullText_eq_spelledText (now : List Char) (iotDev : IoTDeviceToSystem) :
    fullText now iotDev = spelledText now iotDev := by
  simp [fullText, spelledText, IOTDEVICE_MSG_FORMAT, messageArgs, formatText]

theorem noNul_literal {l : List Char} (h : l.all (fun c => c != NUL) = true) : NoNul l := by
  intro c hc
  have := List.all_eq_true.mp h c hc
  simpa using this

theorem noNul_spelledText (now : List Char) (iotDev : IoTDeviceToSystem) :
    NoNul (spelledText now iotDev) := by
  unfold spelledText
  refine noNul_append ?_ (noNul_literal (by decide))
  refine noNul_append ?_ (noNul_fmtInt _)
  refine noNul_append ?_ (noNul_literal (by decide))
  refine noNul_append ?_ (noNul_cstr _)
  refine noNul_append ?_ (noNul_literal (by decide))
  refine noNul_append ?_ (noNul_fmtFixed _ _)
  refine noNul_append ?_ (noNul_literal (by decide))
  refine noNul_append ?_ (noNul_fmtFixed _ _)
  refine noNul_append ?_ (noNul_literal (by decide))
  refine noNul_append ?_ (noNul_fmtFixed _ _)
  refine noNul_append ?_ (noNul_literal (by decide))
  refine noNul_append ?_ (noNul_fmtInt _)
  refine noNul_append ?_ (noNul_literal (by decide))
  refine noNul_append ?_ (noNul_fmtFixed _ _)
  refine noNul_append ?_ (noNul_literal (by decide))
  refine noNul_append ?_ (noNul_fmtFixed _ _)
  refine noNul_append ?_ (noNul_literal (by decide))
  refine noNul_append ?_ (noNul_cstr _)
  refine noNul_append ?_ (noNul_literal (by decide))
  exact noNul_append (noNul_literal (by decide)) (noNul_cstr _)

theorem noNul_fullText (now : List Char) (iotDev : IoTDeviceToSystem) :
    NoNul (fullText now iotDev) :=
  fullText_eq_spelledText now iotDev ▸ noNul_spelledText now iotDev

theorem fullText_timestamp (now : List Char) (iotDev : IoTDeviceToSystem)
    (ts : Option (List Char)) :
    fullText now { iotDev with timestamp := ts } = fullText now iotDev := rfl

/-- What `makeMessage` returns when its `malloc` succeeds: a block of `msg_size` bytes
whose C string is the formatted text cut to `msg_size - 1` chars. -/
theorem makeMessage_some (garbage : Nat → Char) (now : List Char)
    (iotDev : IoTDeviceToSystem) :
    ∃ msg, makeMessage (some garbage) now iotDev =
        some ({ iotDev with timestamp := some now }, msg) ∧
      msg.length = msg_size ∧
      cstr msg = (fullText now iotDev).take (msg_size - 1) := by
  refine ⟨snprintf ((List.range msg_size).map garbage) msg_size (fullText now iotDev),
    rfl, ?_, ?_⟩
  · exact length_snprintf _ _ _ (by simp)
  · exact cstr_snprintf _ _ _ (by decide) (noNul_fullText now iotDev)

theorem makeMessage_none (now : List Char) (iotDev : IoTDeviceToSystem) :
    makeMessage none now iotDev = none := rfl

/-! ## The digits that `%.pf` prints denote the correctly rounded value -/

theorem roundHalfEven_nearest (num den : Nat) (hd : 0 < den) :
    2 * (roundHalfEven num den * den) ≤ 2 * num + den ∧
    2 * num ≤ 2 * (roundHalfEven num den * den) + den := by
  have hdm : den * (num / den) + num % den = num := Nat.div_add_mod num den
  have hr : num % den < den := Nat.mod_lt _ hd
  have hc : num / den * den = den * (num / den) := Nat.mul_comm _ _
  unfold roundHalfEven
  simp only
  split
  · rename_i h
    rw [Nat.add_mul, Nat.one_mul, hc]
    rcases h with h | h
    · constructor <;> omega
    · constructor <;> omega
  · rename_i h
    rw [hc]
    have h1 : ¬ 2 * (num % den) > den := fun hgt => h (Or.inl hgt)
    constructor <;> omega

theorem foldl_numeral (s : List Char) :
    ∀ a : Nat, s.foldl (fun a c => 10 * a + (c.toNat - 48)) a =
      a * 10 ^ s.length + numeralValue s := by
  induction s with
  | nil => intro a; simp [numeralValue]
  | cons c t ih =>
    intro a
    simp only [numeralValue, List.foldl_cons, List.length_cons] at ih ⊢
    rw [ih (10 * a + (c.toNat - 48)), ih (10 * 0 + (c.toNat - 48)), Nat.pow_succ]
    ring

theorem numeralValue_append (s t : List Char) :
    numeralValue (s ++ t) = numeralValue s * 10 ^ t.length + numeralValue t := by
  unfold numeralValue
  rw [List.foldl_append, foldl_numeral]
  rfl

theorem numeralValue_digitChar (n : Nat) : numeralValue [digitChar (n % 10)] = n % 10 := by
  have h : n % 10 < 10 := Nat.mod_lt _ (by decide)
  generalize n % 10 = d at h
  interval_cases d <;> decide

theorem numeralValue_natDigitsAux (fuel : Nat) :
    ∀ n : Nat, n ≤ fuel → numeralValue (natDigitsAux fuel n) = n := by
  induction fuel with
  | zero =>
    intro n hn
    obtain rfl : n = 0 := by omega
    decide
  | succ f ih =>
    intro n hn
    unfold natDigitsAux
    split
    · rename_i h10
      rw [numeralValue_digitChar, Nat.mod_eq_of_lt h10]
    · rw [numeralValue_append, ih (n / 10) (by omega), numeralValue_digitChar]
      simp only [List.length_singleton, Nat.pow_one]
      omega

theorem numeralValue_natDigits (n : Nat) : numeralValue (natDigits n) = n :=
  numeralValue_natDigitsAux n n (Nat.le_refl n)

theorem numeralValue_replicate_zero (k : Nat) : numeralValue (List.replicate k '0') = 0 := by
  induction k with
  | zero => rfl
  | succ j ih =>
    have h0 : numeralValue ['0'] = 0 := by decide
    rw [List.replicate_succ, ← List.singleton_append, numeralValue_append, ih, h0]
    omega

theorem numeralValue_padZeros (p : Nat) (d : List Char) :
    numeralValue (padZeros p d) = numeralValue d := by
  unfold padZeros
  rw [numeralValue_append, numeralValue_replicate_zero]
  omega

/-- A finite float printed with `%.pf`, `p > 0`: the sign, the integer digits, a point
and `p` fraction digits; read without the point the digits denote the integer nearest
to `|x| * 10 ^ p`, where `|x| = mant * 2 ^ scale / 2 ^ 149`. -/
theorem fmtFixed_value (p : Nat) (x : CFloat) (hp : 0 < p) (hx : x.isFinite = true) :
    ∃ ip fp : List Char,
      fmtFixed p x = (if x.sign then ['-'] else []) ++ ip ++ '.' :: fp ∧
      fp.length = p ∧
      numeralValue (ip ++ fp) = scaledMagnitude p x ∧
      2 * (scaledMagnitude p x * 2 ^ 149) ≤ 2 * (x.mant * 2 ^ x.scale * 10 ^ p) + 2 ^ 149 ∧
      2 * (x.mant * 2 ^ x.scale * 10 ^ p) ≤ 2 * (scaledMagnitude p x * 2 ^ 149) + 2 ^ 149 := by
  have hpow : 0 < 10 ^ p := Nat.pos_pow_of_pos p (by decide)
  have hlen : (padZeros p (natDigits (scaledMagnitude p x % 10 ^ p))).length = p :=
    length_padZeros (length_natDigits_le hp (Nat.mod_lt _ hpow))
  refine ⟨natDigits (scaledMagnitude p x / 10 ^ p),
    padZeros p (natDigits (scaledMagnitude p x % 10 ^ p)), ?_, hlen, ?_,
    roundHalfEven_nearest _ _ (by decide)⟩
  · simp [fmtFixed, hx, Nat.pos_iff_ne_zero.mp hp]
  · rw [numeralValue_append, hlen, numeralValue_padZeros, numeralValue_natDigits,
      numeralValue_natDigits]
    exact Nat.div_add_mod' _ _

/-! ## The snapshot constants -/

/-- The bit patterns stored by `azure_task` are the binary32 values nearest to the decimal
constants of the source. -/
theorem initial_snapshot_nearest :
    loopEntry.iotPos.latitude.isNearest false 38898556 1000000 = true ∧
    loopEntry.iotPos.longitude.isNearest true 77037852 1000000 = true ∧
    loopEntry.iotTemp.containerTemperature.isNearest false 354 10 = true ∧
    loopEntry.iotTemp.heaterTemperature.isNearest false 371 10 = true ∧
    loopEntry.iotHealth.batteryVoltage.isNearest false 34 10 = true := by
  decide

/-! ## Claims on `makeMessage` -/

set_option maxRecDepth 100000 in
/-- C1 (as stated, refuted): for the example of the specification, whose encoding fits
the buffer, `makeMessage` does not produce the specified text: it writes a blank after
`"position":`, `"temperature":` and `"health":`, and the longitude, stored as a binary32
`float`, prints as `-77.0378`. -/
theorem makeMessage_specified_text_counterexample :
    (fullText exampleNow exampleDev).length + 1 ≤ msg_size ∧
    (makeMessage (some exampleGarbage) exampleNow exampleDev).map (fun r => cstr r.2) =
      some "\x7b\"timestamp\":\"Mon 2024-01-01 12:00:00\",\"device\":\"TEST-DEVICE-1\",\"position\": \x7b\"latitude\":38.8986,\"longitude\":-77.0378,\"geoFence\":0\x7d,\"temperature\": \x7b\"container\":35.4,\"heater\":37.1\x7d,\"health\": \x7b\"batteryVoltage\":3.40,\"network\":\"Orange\",\"signalStrength\":7\x7d\x7d".toList ∧
    (makeMessage (some exampleGarbage) exampleNow exampleDev).map (fun r => cstr r.2) ≠
      some "\x7b\"timestamp\":\"Mon 2024-01-01 12:00:00\",\"device\":\"TEST-DEVICE-1\",\"position\":\x7b\"latitude\":38.8986,\"longitude\":-77.0379,\"geoFence\":0\x7d,\"temperature\":\x7b\"container\":35.4,\"heater\":37.1\x7d,\"health\":\x7b\"batteryVoltage\":3.40,\"network\":\"Orange\",\"signalStrength\":7\x7d\x7d".toList ∧
    (makeMessage (some exampleGarbage) exampleNow exampleDev).map (fun r => cstr r.2) ≠
      some (specifiedText exampleNow exampleDev) := by
  decide

/-- C1 (amended): when the `malloc` of `makeMessage` succeeds and the encoding fits the
512-byte buffer, the message is exactly the text of `spelledText`: the fields in the
specified order, one blank after each of `"position":`, `"temperature":` and `"health":`
and nothing else between the tokens, the strings copied up to their terminator, the
integers by `%d`, latitude and longitude by `%.4f`, the temperatures by `%.1f`, the battery
voltage by `%.2f`; a finite value so printed has exactly 4, 1 and 2 fraction digits. -/
theorem makeMessage_text_of_fits (garbage : Nat → Char) (now : List Char)
    (iotDev : IoTDeviceToSystem)
    (hfit : (spelledText now iotDev).length + 1 ≤ msg_size) :
    (∃ msg, makeMessage (some garbage) now iotDev =
        some ({ iotDev with timestamp := some now }, msg) ∧
      msg.length = msg_size ∧ cstr msg = spelledText now iotDev) ∧
    (∀ x : CFloat, x.isFinite = true →
      IsFixedNumeral 4 (fmtFixed 4 x) ∧ IsFixedNumeral 1 (fmtFixed 1 x) ∧
        IsFixedNumeral 2 (fmtFixed 2 x)) := by
  constructor
  · obtain ⟨msg, h1, h2, h3⟩ := makeMessage_some garbage now iotDev
    refine ⟨msg, h1, h2, ?_⟩
    rw [h3, fullText_eq_spelledText]
    apply List.take_of_length_le
    simp only [msg_size] at hfit ⊢
    omega
  · intro x hx
    exact ⟨fmtFixed_isFixedNumeral 4 x (by decide) hx,
      fmtFixed_isFixedNumeral 1 x (by decide) hx,
      fmtFixed_isFixedNumeral 2 x (by decide) hx⟩

set_option maxRecDepth 100000 in
/-- The example of the specification satisfies the hypothesis of C1 (amended). -/
theorem makeMessage_text_of_fits_witness :
    (spelledText exampleNow exampleDev).length + 1 ≤ msg_size ∧
    ((∃ msg, makeMessage (some exampleGarbage) exampleNow exampleDev =
        some ({ exampleDev with timestamp := some exampleNow }, msg) ∧
      msg.length = msg_size ∧ cstr msg = spelledText exampleNow exampleDev) ∧
    (∀ x : CFloat, x.isFinite = true →
      IsFixedNumeral 4 (fmtFixed 4 x) ∧ IsFixedNumeral 1 (fmtFixed 1 x) ∧
        IsFixedNumeral 2 (fmtFixed 2 x))) :=
  ⟨by decide, makeMessage_text_of_fits exampleGarbage exampleNow exampleDev (by decide)⟩

set_option maxRecDepth 100000 in
/-- C2 (as stated, refuted): with a network name of 600 chars the formatted text has
more than 511 chars, and `makeMessage` does not fail: it returns the text cut to 511
chars. -/
theorem makeMessage_overflow_counterexample :
    msg_size - 1 < (fullText exampleNow longNetworkDev).length ∧
    (makeMessage (some exampleGarbage) exampleNow longNetworkDev).map (fun r => cstr r.2) =
      some ((fullText exampleNow longNetworkDev).take 511) ∧
    (makeMessage (some exampleGarbage) exampleNow longNetworkDev).map (fun r => strlen r.2) =
      some 511 ∧
    (fullText exampleNow longNetworkDev).take 511 ≠ fullText exampleNow longNetworkDev := by
  decide

/-- C2 (amended): when the `malloc` of `makeMessage` succeeds and the formatted text is
longer than 511 chars, `makeMessage` reports no error: it returns the 512-byte block
holding the first 511 chars of the text and the terminator, a proper prefix of the
text. -/
theorem makeMessage_truncates (garbage : Nat → Char) (now : List Char)
    (iotDev : IoTDeviceToSystem)
    (hlong : msg_size - 1 < (fullText now iotDev).length) :
    ∃ msg, makeMessage (some garbage) now iotDev =
        some ({ iotDev with timestamp := some now }, msg) ∧
      msg.length = msg_size ∧
      cstr msg = (fullText now iotDev).take (msg_size - 1) ∧
      strlen msg = msg_size - 1 ∧
      msg.get? (msg_size - 1) = some NUL ∧
      cstr msg ≠ fullText now iotDev := by
  obtain ⟨msg, h1, h2, h3⟩ := makeMessage_some garbage now iotDev
  have hlen : (cstr msg).length = msg_size - 1 := by
    rw [h3, List.length_take]; omega
  refine ⟨msg, h1, h2, h3, hlen, ?_, ?_⟩
  · simp only [makeMessage, malloc, Option.map_some', Option.some.injEq, Prod.mk.injEq] at h1
    rw [← h1.2]
    exact snprintf_terminator _ _ _ (by decide) (by simpa [fullText_timestamp] using hlong)
  · intro h
    rw [h] at hlen
    omega

set_option maxRecDepth 100000 in
/-- The 600-char network name satisfies the hypothesis of C2 (amended). -/
theorem makeMessage_truncates_witness :
    msg_size - 1 < (fullText exampleNow longNetworkDev).length ∧
    ∃ msg, makeMessage (some exampleGarbage) exampleNow longNetworkDev =
        some ({ longNetworkDev with timestamp := some exampleNow }, msg) ∧
      msg.length = msg_size ∧
      cstr msg = (fullText exampleNow longNetworkDev).take (msg_size - 1) ∧
      strlen msg = msg_size - 1 ∧
      msg.get? (msg_size - 1) = some NUL ∧
      cstr msg ≠ fullText exampleNow longNetworkDev :=
  ⟨by decide, makeMessage_truncates exampleGarbage exampleNow longNetworkDev (by decide)⟩

/-! ## Claims on `receiveMessageCallback` -/

/-- C3: `receiveMessageCallback` returns `ACCEPTED` exactly when the payload can be
obtained from the message and the allocation of the copy succeeds, `ABANDONED` in every
other case, and never `REJECTED`; it is a total function, so it has no other outcome. -/
theorem receiveMessageCallback_disposition (message : IOTHUB_MESSAGE)
    (heap : Option (Nat → Char)) :
    ((receiveMessageCallback message heap).1 = .IOTHUBMESSAGE_ACCEPTED ↔
      (message.getByteArray.isSome = true ∧ heap.isSome = true)) ∧
    ((receiveMessageCallback message heap).1 = .IOTHUBMESSAGE_ABANDONED ↔
      ¬ (message.getByteArray.isSome = true ∧ heap.isSome = true)) ∧
    (receiveMessageCallback message heap).1 ≠ .IOTHUBMESSAGE_REJECTED := by
  obtain ⟨payload⟩ := message
  cases payload with
  | none => simp [receiveMessageCallback]
  | some bytes =>
    cases heap with
    | none => simp [receiveMessageCallback, malloc]
    | some g => simp [receiveMessageCallback, malloc]

theorem length_cstr_le (mem : List Char) : (cstr mem).length ≤ mem.length :=
  (List.takeWhile_sublist _).length_le

theorem length_strncpy (dest src : List Char) (n : Nat) (hd : n ≤ dest.length) :
    (strncpy dest src n).length = dest.length := by
  have h1 : (cstr (src.take n)).length ≤ n :=
    (length_cstr_le _).trans (by rw [List.length_take]; omega)
  simp only [strncpy, List.length_append, List.length_replicate, List.length_drop]
  omega

theorem take_strncpy (dest src : List Char) (n : Nat) :
    (strncpy dest src n).take n =
      cstr (src.take n) ++ List.replicate (n - (cstr (src.take n)).length) NUL := by
  have h1 : (cstr (src.take n)).length ≤ n :=
    (length_cstr_le _).trans (by rw [List.length_take]; omega)
  unfold strncpy
  rw [List.take_append_of_le_length (by simp; omega)]
  apply List.take_of_length_le
  simp
  omega

theorem zeroTerminatedCopy_eq (temp payload : List Char)
    (h : temp.length = payload.length + 1) :
    zeroTerminatedCopy temp payload =
      cstr payload ++ List.replicate (payload.length - strlen payload) NUL ++ [NUL] := by
  have hlenS : (strncpy temp payload payload.length).length = payload.length + 1 := by
    rw [length_strncpy _ _ _ (by omega), h]
  unfold zeroTerminatedCopy
  rw [List.set_eq_take_append_cons_drop, if_pos (by omega), take_strncpy, List.take_length,
    List.drop_of_length_le (by omega)]
  rfl

theorem cstr_append_replicate_nul (a : List Char) (ha : NoNul a) (k : Nat) :
    cstr (a ++ List.replicate k NUL ++ [NUL]) = a := by
  cases k with
  | zero => simpa using cstr_append_nul ha []
  | succ j =>
    rw [List.replicate_succ, List.append_assoc, List.cons_append]
    exact cstr_append_nul ha _

set_option maxRecDepth 100000 in
/-- C9 (as stated, refuted): for the payload `A`, zero byte, `B` the copy built by
`receiveMessageCallback` is `A` followed by three zero bytes: its first 3 bytes are not
the payload. -/
theorem zeroTerminatedCopy_counterexample :
    malloc (some exampleGarbage) (['A', NUL, 'B'].length + 1) = some ['x', 'x', 'x', 'x'] ∧
    zeroTerminatedCopy ['x', 'x', 'x', 'x'] ['A', NUL, 'B'] = ['A', NUL, NUL, NUL] ∧
    (zeroTerminatedCopy ['x', 'x', 'x', 'x'] ['A', NUL, 'B']).take 3 ≠ ['A', NUL, 'B'] ∧
    receiveMessageCallback ⟨some ['A', NUL, 'B']⟩ (some exampleGarbage) =
      (.IOTHUBMESSAGE_ACCEPTED,
        [Event.alloc .received, Event.print (Line.receiving ['A']),
         Event.free .received]) := by
  decide

/-- C9 (amended): for every payload of length `n`, when the allocation succeeds the
buffer built by `receiveMessageCallback` has size `n + 1`, its byte at index `n` is 0,
and its first `n` bytes are the payload bytes before the first zero byte of the payload
followed by zero bytes; they equal the payload when it holds no zero byte. The text the
callback then handles is the payload up to its first zero byte. -/
theorem zeroTerminatedCopy_spec (payload : List Char) (garbage : Nat → Char) :
    ∃ temp0, malloc (some garbage) (payload.length + 1) = some temp0 ∧
      (zeroTerminatedCopy temp0 payload).length = payload.length + 1 ∧
      (zeroTerminatedCopy temp0 payload).get? payload.length = some NUL ∧
      (zeroTerminatedCopy temp0 payload).take payload.length =
        cstr payload ++ List.replicate (payload.length - strlen payload) NUL ∧
      (NoNul payload → (zeroTerminatedCopy temp0 payload).take payload.length = payload) ∧
      receiveMessageCallback ⟨some payload⟩ (some garbage) =
        (.IOTHUBMESSAGE_ACCEPTED,
          [Event.alloc .received, Event.print (Line.receiving (cstr payload)),
           Event.free .received]) := by
  have hlen0 : ((List.range (payload.length + 1)).map garbage).length = payload.length + 1 := by
    simp
  generalize hT : (List.range (payload.length + 1)).map garbage = temp0 at hlen0
  have heq := zeroTerminatedCopy_eq temp0 payload hlen0
  have hle : (cstr payload).length ≤ payload.length := length_cstr_le payload
  have htake : (zeroTerminatedCopy temp0 payload).take payload.length =
      cstr payload ++ List.replicate (payload.length - strlen payload) NUL := by
    rw [heq]
    apply List.take_left'
    simp only [List.length_append, List.length_replicate, strlen]
    omega
  have hcstr : cstr (zeroTerminatedCopy temp0 payload) = cstr payload := by
    rw [heq]
    exact cstr_append_replicate_nul _ (noNul_cstr payload) _
  refine ⟨temp0, by simp [malloc, hT], ?_, ?_, htake, ?_, ?_⟩
  · rw [heq]
    simp only [List.length_append, List.length_replicate, strlen, List.length_singleton]
    omega
  · rw [heq, List.get?_eq_getElem?, List.getElem?_append_right
      (by simp only [List.length_append, List.length_replicate, strlen]; omega)]
    simp only [List.length_append, List.length_replicate, strlen]
    rw [show payload.length - ((cstr payload).length +
      (payload.length - (cstr payload).length)) = 0 by omega]
    rfl
  · intro hp
    rw [htake, cstr_of_noNul hp]
    simp [strlen, cstr_of_noNul hp]
  · simp [receiveMessageCallback, malloc, hT, hcstr]

/-! ## Lemmas on the worker loop -/

theorem isInert_doWork (inbound : List (IOTHUB_MESSAGE × Option (Nat → Char))) :
    ∀ x ∈ doWork inbound, x.isInert = true := by
  induction inbound with
  | nil => intro x hx; cases hx
  | cons m rest ih =>
    obtain ⟨⟨payload⟩, heap⟩ := m
    intro x hx
    simp only [doWork, List.mem_append, List.mem_cons] at hx
    rcases hx with h | h | h
    · cases payload with
      | none => simp [receiveMessageCallback] at h
      | some bytes =>
        cases heap with
        | none => simp [receiveMessageCallback, malloc] at h
        | some g =>
          simp only [receiveMessageCallback, malloc, Option.map_some', List.mem_cons,
            List.mem_singleton, List.not_mem_nil, or_false] at h
          rcases h with h | h | h <;> subst h <;> rfl
    · subst h; rfl
    · exact ih x h

theorem diagnostics_of_allocated (b : Build) (e : CycleEnv) (h : e.allocated b = true) :
    ∃ diag, diagnostics b e = some diag ∧ ∀ x ∈ diag, x.isInert = true := by
  obtain ⟨tk, hs, ss, ts⟩ := b
  simp only [CycleEnv.allocated, Bool.and_eq_true, Bool.or_eq_true, Bool.not_eq_true'] at h
  obtain ⟨⟨_, h2⟩, h3⟩ := h
  cases hs <;> cases ss <;> cases ts <;> simp_all [diagnostics] <;> decide

theorem diagnostics_none_of_not_allocated (b : Build) (e : CycleEnv)
    (hh : e.heap.isSome = true) (h : e.allocated b = false) : diagnostics b e = none := by
  obtain ⟨tk, hs, ss, ts⟩ := b
  cases ss <;> cases ts <;> simp_all [diagnostics, CycleEnv.allocated]

/-- The events of an iteration in which the unchecked allocations succeed. -/
theorem cycle_of_allocated (b : Build) (e : CycleEnv) (w : Worker)
    (h : e.allocated b = true) :
    ∃ msg tail, cstr msg = (fullText e.now w.iotDev).take (msg_size - 1) ∧
      (∀ x ∈ tail, x.isInert = true) ∧
      cycle b e w =
        some ({ msg_sent := wrapInt32 (w.msg_sent + 1),
                iotDev := { w.iotDev with timestamp := some e.now } },
          [Event.print (Line.cycleNumber w.msg_sent), Event.alloc .message,
           Event.print Line.sendStamp] ++
          sendMessage e.createOk e.sendOk e.rssi msg (strlen msg) ++
          [Event.free .message, Event.doWork] ++ tail) := by
  obtain ⟨diag, hd, hinert⟩ := diagnostics_of_allocated b e h
  have hheap : e.heap.isSome = true := by
    simp only [CycleEnv.allocated, Bool.and_eq_true] at h
    exact h.1.1
  obtain ⟨g, hg⟩ := Option.isSome_iff_exists.mp hheap
  obtain ⟨msg, hm, _, hc⟩ := makeMessage_some g e.now w.iotDev
  refine ⟨msg, doWork e.inbound ++ diag ++ [Event.wait 5000], hc, ?_, ?_⟩
  · intro x hx
    simp only [List.mem_append, List.mem_singleton] at hx
    rcases hx with (hx | hx) | hx
    · exact isInert_doWork _ x hx
    · exact hinert x hx
    · subst hx; rfl
  · simp only [cycle, hg, hm, hd, List.append_assoc]

theorem cycle_isSome_iff (b : Build) (e : CycleEnv) (w : Worker) :
    (cycle b e w).isSome = true ↔ e.allocated b = true := by
  constructor
  · intro h
    by_contra hn
    have hn : e.allocated b = false := by simpa using hn
    cases hh : e.heap with
    | none => simp [cycle, makeMessage, malloc, hh] at h
    | some g =>
      have := diagnostics_none_of_not_allocated b e (by simp [hh]) hn
      obtain ⟨msg, hm, _, _⟩ := makeMessage_some g e.now w.iotDev
      simp [cycle, hh, hm, this] at h
  · intro h
    obtain ⟨msg, tail, _, _, hc⟩ := cycle_of_allocated b e w h
    simp [hc]

theorem runCycles_of_allocated (b : Build) (cycles : List CycleEnv) :
    ∀ w : Worker, (∀ e ∈ cycles, e.allocated b = true) →
      ∃ evs, runCycles b cycles w = some evs ∧ List.Forall₂ (IsCycle b) cycles evs := by
  induction cycles with
  | nil => intro w _; exact ⟨[], rfl, List.Forall₂.nil⟩
  | cons e rest ih =>
    intro w h
    obtain ⟨msg, tail, _, _, hc⟩ := cycle_of_allocated b e w (h e (List.mem_cons_self _ _))
    obtain ⟨evs, hr, hf⟩ := ih
      { msg_sent := wrapInt32 (w.msg_sent + 1),
        iotDev := { w.iotDev with timestamp := some e.now } }
      (fun c hc => h c (List.mem_cons_of_mem _ hc))
    refine ⟨_ :: evs, ?_, List.Forall₂.cons ⟨w, _, hc⟩ hf⟩
    simp only [runCycles, hc, hr, Option.map_some']

theorem setOptions_quiet (b : Build) (s : Startup) :
    ∀ x ∈ setOptions b s, x.inCycle = false ∧ x.isInert = true := by
  obtain ⟨c, o1, o2, o3, m1, m2, m3, m4⟩ := s
  cases o1 <;> cases o2 <;> cases o3 <;> cases hb : b.teluskit <;>
    simp [setOptions, hb] <;> decide

theorem forall_mem_init {P : Event → Prop} (b : Build) (s : Startup) (tail : List Event)
    (hc : P (Event.createClient true)) (ho : ∀ x ∈ setOptions b s, P x)
    (ht : ∀ x ∈ tail, P x) :
    ∀ x ∈ Event.createClient true :: setOptions b s ++ tail, P x := by
  intro x hx
  rcases List.mem_append.mp hx with h | h
  · rcases List.mem_cons.mp h with h | h
    · exact h ▸ hc
    · exact ho x h
  · exact ht x h

theorem azure_init_of_reachesLoop (b : Build) (s : Startup) (h : s.reachesLoop = true) :
    ∃ init, azure_init b s = (init, some loopEntry) ∧
      ∀ x ∈ init, x.inCycle = false ∧ x.isInert = true := by
  simp only [Startup.reachesLoop, Bool.and_eq_true] at h
  obtain ⟨⟨⟨⟨h1, h2⟩, h3⟩, h4⟩, h5⟩ := h
  refine ⟨_, by simp only [azure_init, h1, h2, h3, h4, h5]; rfl, ?_⟩
  exact forall_mem_init b s _ (by decide) (setOptions_quiet b s) (by decide)

theorem azure_init_of_not_reachesLoop (b : Build) (s : Startup)
    (h : s.reachesLoop = false) :
    ∃ init, azure_init b s = (init, none) ∧ ∀ x ∈ init, x.inCycle = false := by
  have hq : ∀ x ∈ setOptions b s, x.inCycle = false := fun x hx => (setOptions_quiet b s x hx).1
  unfold azure_init
  split
  · exact ⟨_, rfl, by decide⟩
  · split
    · exact ⟨_, rfl, forall_mem_init b s _ rfl hq (by decide)⟩
    · split
      · exact ⟨_, rfl, forall_mem_init b s _ rfl hq (by decide)⟩
      · split
        · exact ⟨_, rfl, forall_mem_init b s _ rfl hq (by decide)⟩
        · split
          · exact ⟨_, rfl, forall_mem_init b s _ rfl hq (by decide)⟩
          · rename_i h1 h2 h3 h4 h5
            simp only [Startup.reachesLoop] at h
            simp_all

/-! ## What one iteration does -/

theorem not_of_isInert {x : Event} (h : x.isInert = true) :
    x.isSend = false ∧ x.isSendAttempt = false ∧ x.isDoWork = false ∧
      x.acquires = false ∧ x.releases = false := by
  simp only [Event.isInert, Bool.not_eq_true', Bool.or_eq_false_iff] at h
  obtain ⟨⟨⟨⟨h1, h2⟩, h3⟩, h4⟩, h5⟩ := h
  exact ⟨h1, h2, h3, h4, h5⟩

theorem countP_of_inert {l : List Event} (h : ∀ x ∈ l, x.isInert = true) :
    l.countP Event.isSend = 0 ∧ l.countP Event.isSendAttempt = 0 ∧
      l.countP Event.isDoWork = 0 ∧ l.countP Event.acquires = 0 ∧
      l.countP Event.releases = 0 := by
  refine ⟨?_, ?_, ?_, ?_, ?_⟩ <;> rw [List.countP_eq_zero] <;> intro x hx
  · simp [(not_of_isInert (h x hx)).1]
  · simp [(not_of_isInert (h x hx)).2.1]
  · simp [(not_of_isInert (h x hx)).2.2.1]
  · simp [(not_of_isInert (h x hx)).2.2.2.1]
  · simp [(not_of_isInert (h x hx)).2.2.2.2]

/-- The shape of the events of an iteration: the encoding, the call of `sendMessage` on
the message up to its terminator, the release of the message, the pump, and then only
events that neither send nor pump nor touch a per-cycle buffer. -/
theorem isCycle_shape {b : Build} {e : CycleEnv} {ev : List Event} (h : IsCycle b e ev) :
    ∃ (w : Worker) (msg : List Char) (tail : List Event),
      cstr msg = (fullText e.now w.iotDev).take (msg_size - 1) ∧
      (∀ x ∈ tail, x.isInert = true) ∧
      ev = [Event.print (Line.cycleNumber w.msg_sent), Event.alloc .message,
            Event.print Line.sendStamp] ++
          sendMessage e.createOk e.sendOk e.rssi msg (strlen msg) ++
          [Event.free .message, Event.doWork] ++ tail := by
  obtain ⟨w, w1, hc⟩ := h
  have ha : e.allocated b = true := (cycle_isSome_iff b e w).mp (by simp [hc])
  obtain ⟨msg, tail, h1, h2, h3⟩ := cycle_of_allocated b e w ha
  rw [hc] at h3
  simp only [Option.some.injEq, Prod.mk.injEq] at h3
  exact ⟨w, msg, tail, h1, h2, h3.2⟩

theorem isCycle_counts {b : Build} {e : CycleEnv} {ev : List Event} (h : IsCycle b e ev) :
    ev.countP Event.isSend = (if e.createOk then 1 else 0) ∧
    ev.countP Event.isSendAttempt = 1 ∧
    ev.countP Event.isDoWork = 1 ∧
    ev.countP Event.acquires = ev.countP Event.releases := by
  obtain ⟨w, msg, tail, _, ht, rfl⟩ := isCycle_shape h
  obtain ⟨t1, t2, t3, t4, t5⟩ := countP_of_inert ht
  cases e.createOk <;>
    simp [sendMessage, List.countP_cons, t1, t2, t3, t4, t5, Event.isSend,
      Event.isSendAttempt, Event.isDoWork, Event.acquires, Event.releases]

theorem forall₂_length {α β : Type} {R : α → β → Prop} {l₁ : List α} {l₂ : List β}
    (h : List.Forall₂ R l₁ l₂) : l₂.length = l₁.length := by
  induction h with
  | nil => rfl
  | cons _ _ ih => simp [ih]

theorem forall₂_right {α β : Type} {R : α → β → Prop} {P : β → Prop}
    (hR : ∀ a b, R a b → P b) {l₁ : List α} {l₂ : List β}
    (h : List.Forall₂ R l₁ l₂) :
    ∀ b ∈ l₂, P b := by
  induction h with
  | nil => intro b hb; cases hb
  | cons hab _ ih =>
    intro b hb
    rcases List.mem_cons.mp hb with rfl | hb
    · exact hR _ _ hab
    · exact ih b hb

theorem countP_balance_flatten {b : Build} {cycles : List CycleEnv}
    {evs : List (List Event)} (h : List.Forall₂ (IsCycle b) cycles evs) :
    evs.flatten.countP Event.acquires = evs.flatten.countP Event.releases := by
  induction h with
  | nil => rfl
  | cons hab _ ih =>
    rw [List.flatten_cons, List.countP_append, List.countP_append, ih,
      (isCycle_counts hab).2.2.2]

theorem liveBuffers_eq (trace : List Event) :
    ∀ start : Int, liveBuffers start trace =
      start + trace.countP Event.acquires - trace.countP Event.releases := by
  induction trace with
  | nil => intro start; simp [liveBuffers]
  | cons x t ih =>
    intro start
    have hx : ¬ (x.acquires = true ∧ x.releases = true) := by
      cases x <;> simp [Event.acquires, Event.releases]
    simp only [liveBuffers, List.foldl_cons] at ih ⊢
    rw [ih, List.countP_cons, List.countP_cons]
    cases h1 : x.acquires <;> cases h2 : x.releases <;> simp_all <;> omega

/-- At the entry of the loop the pointers of `*iotDev` to the three records have not
been assigned: the state the loop body would read is undefined. -/
theorem loopEntry_worker : loopEntry.worker = none := rfl

/-- When the start succeeds, `azure_task` reaches its loop and the first iteration is
undefined: `makeMessage` follows pointers that were never assigned. -/
theorem azure_task_of_reachesLoop (b : Build) (s : Startup) (e : CycleEnv)
    (rest : List CycleEnv) (hs : s.reachesLoop = true) :
    azure_task b s (e :: rest) = none := by
  obtain ⟨init, hi, _⟩ := azure_init_of_reachesLoop b s hs
  simp [azure_task, hi, loopEntry_worker]

/-- The outcomes of the `IoTHubClient_LL_SetOption` calls have no effect on the variables
with which the loop is reached. -/
theorem azure_init_withOptionsOk (b : Build) (s : Startup) :
    (azure_init b s).2 = (azure_init b s.withOptionsOk).2 := by
  cases hr : s.reachesLoop with
  | true =>
    have hr1 : s.withOptionsOk.reachesLoop = true := hr
    obtain ⟨_, h1, _⟩ := azure_init_of_reachesLoop b s hr
    obtain ⟨_, h2, _⟩ := azure_init_of_reachesLoop b s.withOptionsOk hr1
    rw [h1, h2]
  | false =>
    have hr1 : s.withOptionsOk.reachesLoop = false := hr
    obtain ⟨_, h1, _⟩ := azure_init_of_not_reachesLoop b s hr
    obtain ⟨_, h2, _⟩ := azure_init_of_not_reachesLoop b s.withOptionsOk hr1
    rw [h1, h2]

/-- The loop body runs from every state in which the record is readable, when the
unchecked allocations of every iteration succeed. -/
theorem runCycles_runs (b : Build) (cycles : List CycleEnv) (w : Worker)
    (hc : ∀ e ∈ cycles, e.allocated b = true) :
    ∃ evs, runCycles b cycles w = some evs ∧ evs.length = cycles.length ∧
      List.Forall₂ (IsCycle b) cycles evs := by
  obtain ⟨evs, hr, hf⟩ := runCycles_of_allocated b cycles w hc
  exact ⟨evs, hr, forall₂_length hf, hf⟩

/-- The loop body completes its iterations exactly when the unchecked allocations of
every iteration succeed. -/
theorem runCycles_isSome_iff (b : Build) (cycles : List CycleEnv) :
    ∀ w : Worker, (runCycles b cycles w).isSome = true ↔
      ∀ e ∈ cycles, e.allocated b = true := by
  induction cycles with
  | nil => intro w; simp [runCycles]
  | cons e rest ih =>
    intro w
    constructor
    · intro h c hc
      simp only [runCycles] at h
      split at h
      · simp at h
      · rename_i w1 ev hce
        rcases List.mem_cons.mp hc with rfl | hc
        · exact (cycle_isSome_iff b c w).mp (by simp [hce])
        · refine (ih w1).mp ?_ c hc
          cases hr : runCycles b rest w1 with
          | none => simp [hr] at h
          | some evs => rfl
    · intro h
      obtain ⟨evs, hr, _⟩ := runCycles_of_allocated b (e :: rest) w h
      simp [hr]

theorem take_strlen (mem : List Char) : mem.take (strlen mem) = cstr mem := by
  induction mem with
  | nil => rfl
  | cons c t ih =>
    simp only [strlen, cstr, List.takeWhile_cons] at ih ⊢
    split
    · simp only [List.length_cons, List.take_succ_cons, ih]
    · rfl

theorem wait_mem_of_isCycle {b : Build} {e : CycleEnv} {ev : List Event}
    (h : IsCycle b e ev) : Event.wait 5000 ∈ ev := by
  obtain ⟨w, w1, hc⟩ := h
  unfold cycle at hc
  split at hc
  · cases hc
  · split at hc
    · cases hc
    · simp only [Option.some.injEq, Prod.mk.injEq] at hc
      rw [← hc.2]
      simp

/-- The bytes an iteration hands to `sendMessage`, and through it to the SDK: the
formatted text cut to `msg_size - 1` chars. -/
theorem isCycle_bytes {b : Build} {e : CycleEnv} {w w1 : Worker} {ev : List Event}
    (h : cycle b e w = some (w1, ev)) :
    Event.createMessage ((fullText e.now w.iotDev).take (msg_size - 1)) e.createOk ∈ ev ∧
    (e.createOk = true →
      Event.sendEventAsync ((fullText e.now w.iotDev).take (msg_size - 1)) e.sendOk ∈ ev) ∧
    (∀ bs ok, Event.createMessage bs ok ∈ ev →
      bs = (fullText e.now w.iotDev).take (msg_size - 1)) ∧
    (∀ bs ok, Event.sendEventAsync bs ok ∈ ev →
      bs = (fullText e.now w.iotDev).take (msg_size - 1)) := by
  have ha : e.allocated b = true := (cycle_isSome_iff b e w).mp (by simp [h])
  obtain ⟨msg, tail, h1, h2, h3⟩ := cycle_of_allocated b e w ha
  rw [h] at h3
  simp only [Option.some.injEq, Prod.mk.injEq] at h3
  obtain ⟨_, rfl⟩ := h3
  have hb : msg.take (strlen msg) = (fullText e.now w.iotDev).take (msg_size - 1) := by
    rw [take_strlen, h1]
  have hnc : ∀ bs ok, Event.createMessage bs ok ∉ tail := by
    intro bs ok hx
    have := (not_of_isInert (h2 _ hx)).2.1
    simp [Event.isSendAttempt] at this
  have hns : ∀ bs ok, Event.sendEventAsync bs ok ∉ tail := by
    intro bs ok hx
    have := (not_of_isInert (h2 _ hx)).1
    simp [Event.isSend] at this
  refine ⟨?_, ?_, ?_, ?_⟩
  · cases e.createOk <;> simp [sendMessage, hb]
  · intro hc
    simp [sendMessage, hc, hb]
  · intro bs ok hx
    cases hco : e.createOk <;>
      simp [sendMessage, hco, hb, hnc] at hx <;> exact hx.1
  · intro bs ok hx
    cases hco : e.createOk <;>
      simp [sendMessage, hco, hb, hns] at hx
    exact hx.1

/-! ## Claims on the worker loop

The theorems on the iterations are stated on the loop body, `cycle` and `runCycles`, from
every state in which the record behind `iotDev` is readable. -/

/-- C5: if the creation of the client handle fails, or one of the four allocations of
the scratch records fails, `azure_task` returns before its loop, whatever the
environment would have offered to the iterations: no cycle is executed, and among the
events of the run there is no encoding of a message, no send attempt, no send and no
pump of the transport. -/
theorem azure_task_aborts (b : Build) (s : Startup) (cycles : List CycleEnv)
    (h : s.createOk = false ∨ s.positionOk = false ∨ s.temperatureOk = false ∨
      s.healthOk = false ∨ s.iotDeviceOk = false) :
    (azure_init b s).2 = none ∧
    ∃ init, azure_task b s cycles = some (init, []) ∧
      (∀ x ∈ init, x.inCycle = false) ∧
      init.countP Event.isSend = 0 ∧ init.countP Event.isSendAttempt = 0 ∧
      init.countP Event.isDoWork = 0 ∧ Event.alloc .message ∉ init := by
  have hr : s.reachesLoop = false := by
    simp only [Startup.reachesLoop]
    rcases h with h | h | h | h | h <;> simp [h]
  obtain ⟨init, hi, hq⟩ := azure_init_of_not_reachesLoop b s hr
  refine ⟨by rw [hi], init, by simp [azure_task, hi], hq, ?_, ?_, ?_, ?_⟩
  · rw [List.countP_eq_zero]
    intro x hx hsend
    have := hq x hx
    cases x <;> simp_all [Event.inCycle, Event.isSend]
  · rw [List.countP_eq_zero]
    intro x hx hsend
    have := hq x hx
    cases x <;> simp_all [Event.inCycle, Event.isSendAttempt]
  · rw [List.countP_eq_zero]
    intro x hx hsend
    have := hq x hx
    cases x <;> simp_all [Event.inCycle, Event.isDoWork]
  · intro hx
    have := hq _ hx
    simp [Event.inCycle] at this

/-- Hypothesis of C5 at a start whose `Health` allocation fails. -/
theorem azure_task_aborts_witness :
    (noHealthStartup.createOk = false ∨ noHealthStartup.positionOk = false ∨
      noHealthStartup.temperatureOk = false ∨ noHealthStartup.healthOk = false ∨
      noHealthStartup.iotDeviceOk = false) ∧
    ((azure_init plainBuild noHealthStartup).2 = none ∧
    ∃ init, azure_task plainBuild noHealthStartup [goodCycle, goodCycle] = some (init, []) ∧
      (∀ x ∈ init, x.inCycle = false) ∧
      init.countP Event.isSend = 0 ∧ init.countP Event.isSendAttempt = 0 ∧
      init.countP Event.isDoWork = 0 ∧ Event.alloc .message ∉ init) :=
  ⟨by decide,
    azure_task_aborts plainBuild noHealthStartup [goodCycle, goodCycle] (by decide)⟩

set_option maxRecDepth 100000 in
/-- C6 (the code at the failing input): with every call before the loop succeeding,
`azure_task` reaches its loop with `iotDev->position`, `iotDev->temperature` and
`iotDev->health` never assigned, although the three records are allocated and filled; the
first `makeMessage` follows these pointers, so the first cycle is undefined and is not
completed, whatever the `IoTHubClient_LL_SetOption` calls returned. From the state in
which the three records are stored in `*iotDev` the same iteration completes. -/
theorem azure_task_first_cycle_undefined :
    (azure_init plainBuild goodStartup).2 = some loopEntry ∧
    (azure_init telusBuild noOptionStartup).2 = some loopEntry ∧
    loopEntry.position = none ∧ loopEntry.temperature = none ∧ loopEntry.health = none ∧
    azure_task plainBuild goodStartup [goodCycle] = none ∧
    azure_task telusBuild noOptionStartup [goodCycle] = none ∧
    ({ loopEntry with
        position := some loopEntry.iotPos, temperature := some loopEntry.iotTemp,
        health := some loopEntry.iotHealth } : LoopEntry).worker = some exampleWorker ∧
    (cycle plainBuild goodCycle exampleWorker).isSome = true :=
  ⟨rfl, rfl, rfl, rfl, rfl, rfl, rfl, rfl, by decide⟩

/-- C7: in every completed cycle of the loop, whether the message handle is created or
not and whether the send is accepted or not, the per-cycle buffers allocated (the message
buffer of `makeMessage`, the transport message handle) are as many as those released, so
the number of live per-cycle buffers after `N` cycles is the one before the first
cycle. -/
theorem runCycles_buffer_balance (b : Build) (cycles : List CycleEnv) (w : Worker)
    (hc : ∀ e ∈ cycles, e.allocated b = true) :
    ∃ evs, runCycles b cycles w = some evs ∧
      evs.length = cycles.length ∧
      (∀ ev ∈ evs, ev.countP Event.acquires = ev.countP Event.releases) ∧
      (∀ ev ∈ evs, ∀ start, liveBuffers start ev = start) ∧
      evs.flatten.countP Event.acquires = evs.flatten.countP Event.releases ∧
      (∀ start, liveBuffers start evs.flatten = start) := by
  obtain ⟨evs, hr, hlen, hf⟩ := runCycles_runs b cycles w hc
  have hper : ∀ ev ∈ evs, ev.countP Event.acquires = ev.countP Event.releases := by
    refine forall₂_right (fun e ev h => ?_) hf
    exact (isCycle_counts h).2.2.2
  have hall := countP_balance_flatten hf
  refine ⟨evs, hr, hlen, hper, ?_, hall, ?_⟩
  · intro ev hev start
    rw [liveBuffers_eq, hper ev hev]
    omega
  · intro start
    rw [liveBuffers_eq, hall]
    omega

set_option maxRecDepth 100000 in
/-- Hypothesis of C7 at a run of three cycles with the three send outcomes. -/
theorem runCycles_buffer_balance_witness :
    (∀ e ∈ [noHandleCycle, sendFailureCycle, goodCycle], e.allocated plainBuild = true) ∧
    ∃ evs,
      runCycles plainBuild [noHandleCycle, sendFailureCycle, goodCycle] exampleWorker =
        some evs ∧
      evs.length = [noHandleCycle, sendFailureCycle, goodCycle].length ∧
      (∀ ev ∈ evs, ev.countP Event.acquires = ev.countP Event.releases) ∧
      (∀ ev ∈ evs, ∀ start, liveBuffers start ev = start) ∧
      evs.flatten.countP Event.acquires = evs.flatten.countP Event.releases ∧
      (∀ start, liveBuffers start evs.flatten = start) :=
  ⟨by decide,
    runCycles_buffer_balance plainBuild [noHandleCycle, sendFailureCycle, goodCycle]
      exampleWorker (by decide)⟩

/-- C10: in every iteration (its unchecked allocations succeeding), with `L` the length
of the fully formatted text, the bytes handed to `sendMessage`, which are the bytes
given to `IoTHubMessage_CreateFromByteArray` and to `IoTHubClient_LL_SendEventAsync`,
are the first `min L 511` bytes of that text and number `min L 511`, so never more than
511. -/
theorem cycle_sent_bytes (b : Build) (e : CycleEnv) (w : Worker)
    (h : e.allocated b = true) :
    ∃ w1 ev, cycle b e w = some (w1, ev) ∧
      Event.createMessage
        ((fullText e.now w.iotDev).take (min (fullText e.now w.iotDev).length 511))
        e.createOk ∈ ev ∧
      (∀ bs ok, Event.createMessage bs ok ∈ ev ∨ Event.sendEventAsync bs ok ∈ ev →
        bs = (fullText e.now w.iotDev).take (min (fullText e.now w.iotDev).length 511) ∧
        bs.length = min (fullText e.now w.iotDev).length 511 ∧ bs.length ≤ 511) := by
  have htake : (fullText e.now w.iotDev).take (min (fullText e.now w.iotDev).length 511) =
      (fullText e.now w.iotDev).take (msg_size - 1) := by
    rw [List.take_eq_take]
    simp only [msg_size]
    omega
  obtain ⟨w1, hw⟩ := Option.isSome_iff_exists.mp ((cycle_isSome_iff b e w).mpr h)
  obtain ⟨w2, ev⟩ := w1
  obtain ⟨hb1, _, hb3, hb4⟩ := isCycle_bytes hw
  refine ⟨w2, ev, hw, htake ▸ hb1, ?_⟩
  intro bs ok hx
  have hbs : bs = (fullText e.now w.iotDev).take (msg_size - 1) := by
    rcases hx with hx | hx
    · exact hb3 bs ok hx
    · exact hb4 bs ok hx
  refine ⟨by rw [htake]; exact hbs, ?_, ?_⟩
  · rw [hbs, List.length_take]; simp only [msg_size]; omega
  · rw [hbs, List.length_take]; simp only [msg_size]; omega

set_option maxRecDepth 100000 in
/-- Hypothesis of C10 at the example iteration. -/
theorem cycle_sent_bytes_witness :
    goodCycle.allocated plainBuild = true ∧
    ∃ w1 ev, cycle plainBuild goodCycle exampleWorker = some (w1, ev) ∧
      Event.createMessage
        ((fullText goodCycle.now exampleWorker.iotDev).take
          (min (fullText goodCycle.now exampleWorker.iotDev).length 511))
        goodCycle.createOk ∈ ev ∧
      (∀ bs ok, Event.createMessage bs ok ∈ ev ∨ Event.sendEventAsync bs ok ∈ ev →
        bs = (fullText goodCycle.now exampleWorker.iotDev).take
          (min (fullText goodCycle.now exampleWorker.iotDev).length 511) ∧
        bs.length = min (fullText goodCycle.now exampleWorker.iotDev).length 511 ∧
        bs.length ≤ 511) :=
  ⟨by decide, cycle_sent_bytes plainBuild goodCycle exampleWorker (by decide)⟩

end AzureClient
